import Mathlib

/-!
Shallow embedding of the Notes Service (`src/notes_backend/src/api/main.py`),
a FastAPI + SQLite CRUD backend for note entities.

Modelling choices:
* Timestamps: the code stores `datetime.now(timezone.utc).isoformat()` strings
  (ISO-8601 UTC with fixed offset); for same-offset ISO strings the SQLite TEXT
  ordering used by `ORDER BY updated_at DESC` agrees with chronological order,
  so timestamps are modelled as abstract `Nat` instants.  Each handler that
  reads the clock (`_utc_now_iso`) takes the current instant `now : Nat` as an
  explicit argument.
* Storage: the SQLite `notes` table is a list of rows plus the AUTOINCREMENT
  sequence counter `nextId` (AUTOINCREMENT assigns `seq+1` and never reuses an
  id after deletion, the sequence is not decremented by DELETE).
* Validation: pydantic `Field(min_length, max_length)` constraints run on the
  raw string; the `field_validator` (default mode, i.e. after) then strips
  whitespace, rejects an empty result, and the stripped value is what the
  handler sees.  Python `str.strip()` is modelled by `pyStrip`.
* HTTP errors: `422` pydantic payload validation failures, `404` not-found,
  and the `500` guard after insert are the constructors of `ApiError`.  The
  `Field(..., ge=1)` annotations on the id path parameters are not valid
  FastAPI path-parameter declarations (FastAPI asserts on a plain pydantic
  FieldInfo default at route registration), so they enforce nothing: the
  handlers receive the raw integer id and bind it into the SQL query.
* Each mutating endpoint returns the new storage state together with the
  response, so "state unchanged" is expressible literally.
-/

/-- Whitespace stripping on character lists: drop leading whitespace, then
trailing whitespace (via reverse).  Models Python `str.strip()`. -/
def stripChars (l : List Char) : List Char :=
  ((l.dropWhile Char.isWhitespace).reverse.dropWhile Char.isWhitespace).reverse

/-- Model of Python `str.strip()` on strings. -/
def pyStrip (s : String) : String := ⟨stripChars s.data⟩

/-- Error outcomes surfaced over HTTP: 422 validation error, 404 not found,
500 internal error (post-insert re-read guard). -/
inductive ApiError where
  | validationError : ApiError
  | notFound : ApiError
  | internalError : ApiError
deriving DecidableEq, Repr

/-- A persisted note row (table `notes`): all five columns are `NOT NULL`,
which the typed fields capture by construction. -/
structure Note where
  id : Nat
  title : String
  content : String
  created_at : Nat
  updated_at : Nat
deriving DecidableEq, Repr

/-- Payload to create a note (pydantic model `NoteCreate`), post-validation. -/
structure NoteCreate where
  title : String
  content : String
deriving DecidableEq, Repr

/-- Payload to update a note (pydantic model `NoteUpdate`), post-validation. -/
structure NoteUpdate where
  title : String
  content : String
deriving DecidableEq, Repr

/-- Pydantic validation of a `NoteCreate` payload: `title` has
`min_length=1, max_length=200` on the raw string, `content` (default `""`)
has `max_length=10_000`; then `_title_non_empty` strips the title and
rejects a blank result, returning the stripped title. -/
def NoteCreate.parse (title content : String) : Option NoteCreate :=
  if title.length < 1 then none
  else if 200 < title.length then none
  else if 10000 < content.length then none
  else
    let v2 := pyStrip title
    if v2 = "" then none
    else some ⟨v2, content⟩

/-- Pydantic validation of a `NoteUpdate` payload; the `NoteUpdate` model in
the source repeats the `NoteCreate` constraints and validator verbatim. -/
def NoteUpdate.parse (title content : String) : Option NoteUpdate :=
  if title.length < 1 then none
  else if 200 < title.length then none
  else if 10000 < content.length then none
  else
    let v2 := pyStrip title
    if v2 = "" then none
    else some ⟨v2, content⟩

/-- Storage state: the rows of the `notes` table, plus the AUTOINCREMENT
sequence (`nextId` is the id the next INSERT will receive). -/
structure DB where
  rows : List Note
  nextId : Nat
deriving DecidableEq, Repr

/-- `SELECT ... FROM notes WHERE id = ?` returning at most one row
(first match, as `fetchone` does). -/
def findRow (rows : List Note) (n : Nat) : Option Note :=
  rows.find? (fun r => r.id == n)

/-- `SELECT ... FROM notes WHERE id = ?` with the raw integer path
parameter bound into the query, as the id handlers do: a row matches when
its stored id equals the queried integer, so a non-positive query value
matches no row with a positive id. -/
def findRowInt (rows : List Note) (i : Int) : Option Note :=
  rows.find? (fun r => (r.id : Int) == i)

/-- SQLite `ORDER BY updated_at DESC, id DESC` as a relation on rows:
`noteOrd a b` holds when `a` sorts no later than `b` under that ordering. -/
def noteOrd (a b : Note) : Prop :=
  b.updated_at < a.updated_at ∨ (b.updated_at = a.updated_at ∧ b.id ≤ a.id)

instance : DecidableRel noteOrd := fun a b => by
  unfold noteOrd; infer_instance

instance : IsTotal Note noteOrd :=
  ⟨fun a b => by unfold noteOrd; omega⟩

instance : IsTrans Note noteOrd :=
  ⟨fun a b c => by unfold noteOrd; omega⟩

/-- Handler `list_notes` (`GET /notes`): every row, ordered by
`updated_at DESC, id DESC`. -/
def list_notes (db : DB) : List Note :=
  db.rows.insertionSort noteOrd

/-- Handler `create_note` (`POST /notes`), after payload validation:
INSERT with both timestamps set to the single `now` value and
`id = lastrowid` (the AUTOINCREMENT sequence value), commit, then re-read
the row; a missing re-read raises HTTP 500. -/
def create_note (db : DB) (payload : NoteCreate) (now : Nat) :
    DB × Except ApiError Note :=
  let note : Note :=
    { id := db.nextId, title := payload.title, content := payload.content,
      created_at := now, updated_at := now }
  let db2 : DB := { rows := db.rows ++ [note], nextId := db.nextId + 1 }
  match findRow db2.rows note.id with
  | some row => (db2, Except.ok row)
  | none => (db2, Except.error ApiError.internalError)

/-- Endpoint `POST /notes` on raw payload fields: pydantic validation of
`NoteCreate`, then the handler; a validation failure touches no storage. -/
def post_note (db : DB) (title content : String) (now : Nat) :
    DB × Except ApiError Note :=
  match NoteCreate.parse title content with
  | none => (db, Except.error ApiError.validationError)
  | some payload => create_note db payload now

/-- Handler `get_note` (`GET /notes/{id}`): SELECT by id, 404 on no row.
The source annotates the path parameter with pydantic `Field(ge=1)`, but a
plain `Field` is not a valid FastAPI path-parameter declaration (FastAPI
asserts on the FieldInfo default at route registration), so no validation
gate on `id` exists: the handler body binds the raw integer into the
query. -/
def get_note (db : DB) (id : Int) : Except ApiError Note :=
  match findRowInt db.rows id with
  | none => Except.error ApiError.notFound
  | some row => Except.ok row

/-- Handler `update_note` (`PUT /notes/{id}`), after payload validation:
existence check (404 before any mutation), then `UPDATE notes SET title,
content, updated_at WHERE id`, commit, and a re-read that returns 404 if
the row vanished.  As in `get_note`, the `Field(ge=1)` annotation on the
path parameter is an invalid declaration and enforces nothing; the raw
integer id goes straight into the queries. -/
def update_note (db : DB) (id : Int) (payload : NoteUpdate) (now : Nat) :
    DB × Except ApiError Note :=
  match findRowInt db.rows id with
  | none => (db, Except.error ApiError.notFound)
  | some _ =>
    let db2 : DB :=
      { rows :=
          db.rows.map (fun r =>
            if (r.id : Int) = id then
              { r with title := payload.title, content := payload.content,
                       updated_at := now }
            else r),
        nextId := db.nextId }
    match findRowInt db2.rows id with
    | some row => (db2, Except.ok row)
    | none => (db2, Except.error ApiError.notFound)

/-- Endpoint `PUT /notes/{id}` on raw payload fields: pydantic validation of
`NoteUpdate`, then the handler; a validation failure touches no storage. -/
def put_note (db : DB) (id : Int) (title content : String) (now : Nat) :
    DB × Except ApiError Note :=
  match NoteUpdate.parse title content with
  | none => (db, Except.error ApiError.validationError)
  | some payload => update_note db id payload now

/-- Handler `delete_note` (`DELETE /notes/{id}`): `DELETE FROM notes WHERE
id = ?`, commit, and 404 when `rowcount == 0`; success is 204 with no
content.  As in `get_note`, the invalid `Field(ge=1)` annotation enforces
nothing; a non-positive id reaches the DELETE and matches zero rows. -/
def delete_note (db : DB) (id : Int) : DB × Except ApiError Unit :=
  let rows2 := db.rows.filter (fun r => ¬ (r.id : Int) = id)
  if rows2.length = db.rows.length then
    ({ rows := rows2, nextId := db.nextId }, Except.error ApiError.notFound)
  else
    ({ rows := rows2, nextId := db.nextId }, Except.ok ())

/-- Handler `health_check` (`GET /`): fixed payload, no storage access. -/
def health_check : String := "Healthy"

/-- Data-model invariant on storage states: every row has a positive id
below the AUTOINCREMENT sequence, `created_at <= updated_at`, a title that
is non-empty and in stripped normal form; ids are pairwise distinct
(PRIMARY KEY) and the sequence is at least 1. -/
def Wf (db : DB) : Prop :=
  (∀ r ∈ db.rows,
      1 ≤ r.id ∧ r.id < db.nextId ∧ r.created_at ≤ r.updated_at ∧
      r.title ≠ "" ∧ pyStrip r.title = r.title) ∧
  (db.rows.map Note.id).Nodup ∧ 1 ≤ db.nextId

instance (db : DB) : Decidable (Wf db) := by
  unfold Wf; infer_instance

/-! ### Helper lemmas on whitespace stripping -/

theorem dropWhile_self_dropWhile (p : Char → Bool) (l : List Char) :
    (l.dropWhile p).dropWhile p = l.dropWhile p := by
  induction l with
  | nil => simp
  | cons a t ih =>
    by_cases h : p a
    · simp [List.dropWhile_cons, h, ih]
    · simp [List.dropWhile_cons, h]

theorem dropWhile_eq_self_of_prefix {p : Char → Bool} {x l : List Char}
    (hpre : x <+: l) (hl : l.dropWhile p = l) : x.dropWhile p = x := by
  cases x with
  | nil => simp
  | cons a t =>
    obtain ⟨s, hs⟩ := hpre
    subst hs
    by_cases h : p a
    · exfalso
      rw [List.cons_append, List.dropWhile_cons, if_pos h] at hl
      have h1 : (List.dropWhile p (t ++ s)).length ≤ (t ++ s).length :=
        (List.dropWhile_sublist p).length_le
      have h2 := congrArg List.length hl
      simp only [List.length_append, List.length_cons] at h1 h2
      omega
    · simp [List.dropWhile_cons, h]

theorem stripChars_no_leading (l : List Char) :
    (stripChars l).dropWhile Char.isWhitespace = stripChars l := by
  have hm : (l.dropWhile Char.isWhitespace).dropWhile Char.isWhitespace
      = l.dropWhile Char.isWhitespace := dropWhile_self_dropWhile _ _
  have hpre : stripChars l <+: l.dropWhile Char.isWhitespace := by
    rw [← List.reverse_suffix]
    simpa [stripChars] using
      List.dropWhile_suffix (l := (l.dropWhile Char.isWhitespace).reverse)
        Char.isWhitespace
  exact dropWhile_eq_self_of_prefix hpre hm

theorem stripChars_idem (l : List Char) :
    stripChars (stripChars l) = stripChars l := by
  have h1 : (stripChars l).dropWhile Char.isWhitespace = stripChars l :=
    stripChars_no_leading l
  have h2 : (stripChars l).reverse
      = (l.dropWhile Char.isWhitespace).reverse.dropWhile Char.isWhitespace := by
    simp [stripChars]
  calc stripChars (stripChars l)
      = (((stripChars l).dropWhile Char.isWhitespace).reverse.dropWhile
          Char.isWhitespace).reverse := rfl
    _ = ((stripChars l).reverse.dropWhile Char.isWhitespace).reverse := by
          rw [h1]
    _ = (((l.dropWhile Char.isWhitespace).reverse.dropWhile
          Char.isWhitespace).dropWhile Char.isWhitespace).reverse := by
          rw [h2]
    _ = ((l.dropWhile Char.isWhitespace).reverse.dropWhile
          Char.isWhitespace).reverse := by rw [dropWhile_self_dropWhile]
    _ = stripChars l := rfl

theorem pyStrip_idem (s : String) : pyStrip (pyStrip s) = pyStrip s := by
  show (⟨stripChars (stripChars s.data)⟩ : String) = ⟨stripChars s.data⟩
  rw [stripChars_idem]

theorem stripChars_eq_nil {l : List Char} (h : ∀ c ∈ l, c.isWhitespace) :
    stripChars l = [] := by
  have hd : l.dropWhile Char.isWhitespace = [] :=
    List.dropWhile_eq_nil_iff.mpr h
  simp [stripChars, hd]

theorem pyStrip_eq_empty {s : String}
    (h : ∀ c ∈ s.data, c.isWhitespace) : pyStrip s = "" := by
  show (⟨stripChars s.data⟩ : String) = ""
  rw [stripChars_eq_nil h]

/-! ### Helper lemmas on row lookup -/

theorem findRow_id {rows : List Note} {n : Nat} {r : Note}
    (h : findRow rows n = some r) : r.id = n := by
  have hb := List.find?_some h
  simpa using hb

theorem findRow_mem {rows : List Note} {n : Nat} {r : Note}
    (h : findRow rows n = some r) : r ∈ rows :=
  List.mem_of_find?_eq_some h

theorem findRow_append_new {rows : List Note} {note : Note}
    (hid : ∀ r ∈ rows, r.id ≠ note.id) :
    findRow (rows ++ [note]) note.id = some note := by
  unfold findRow
  rw [List.find?_append]
  have h1 : rows.find? (fun r => r.id == note.id) = none :=
    List.find?_eq_none.mpr (fun r hr => by simpa using hid r hr)
  simp [h1]

theorem findRow_map_presv {rows : List Note} {n : Nat} {f : Note → Note}
    (hf : ∀ r, (f r).id = r.id) :
    findRow (rows.map f) n = Option.map f (findRow rows n) := by
  unfold findRow
  rw [List.find?_map]
  have hfun : ((fun r : Note => r.id == n) ∘ f) = fun r : Note => r.id == n :=
    funext fun r => by simp [Function.comp, hf]
  rw [hfun]

theorem findRowInt_id {rows : List Note} {i : Int} {r : Note}
    (h : findRowInt rows i = some r) : (r.id : Int) = i := by
  have hb := List.find?_some h
  simpa using hb

theorem findRowInt_map_presv {rows : List Note} {i : Int} {f : Note → Note}
    (hf : ∀ r, (f r).id = r.id) :
    findRowInt (rows.map f) i = Option.map f (findRowInt rows i) := by
  unfold findRowInt
  rw [List.find?_map]
  have hfun : ((fun r : Note => (r.id : Int) == i) ∘ f)
      = fun r : Note => (r.id : Int) == i :=
    funext fun r => by simp [Function.comp, hf]
  rw [hfun]

theorem findRowInt_eq_findRow (rows : List Note) {i : Int} (h : 0 ≤ i) :
    findRowInt rows i = findRow rows i.toNat := by
  unfold findRowInt findRow
  have hfun : (fun r : Note => (r.id : Int) == i)
      = fun r : Note => r.id == i.toNat := by
    funext r
    by_cases h2 : (r.id : Int) = i
    · have h3 : r.id = i.toNat := by omega
      simp [h2, h3, h]
    · have h3 : r.id ≠ i.toNat := by omega
      simp [h2, h3]
  rw [hfun]

deriving instance DecidableEq for Except

/-! ### Inversion lemmas for validation and handlers -/

theorem noteCreate_parse_some {title content : String} {p : NoteCreate}
    (h : NoteCreate.parse title content = some p) :
    p.title = pyStrip title ∧ p.content = content ∧ p.title ≠ "" ∧
    pyStrip p.title = p.title ∧ 1 ≤ title.length ∧ title.length ≤ 200 ∧
    content.length ≤ 10000 := by
  simp only [NoteCreate.parse] at h
  split at h
  case isTrue => exact Option.noConfusion h
  case isFalse h1 =>
    split at h
    case isTrue => exact Option.noConfusion h
    case isFalse h2 =>
      split at h
      case isTrue => exact Option.noConfusion h
      case isFalse h3 =>
        split at h
        case isTrue h4 => exact Option.noConfusion h
        case isFalse h4 =>
          injection h with h5
          subst h5
          exact ⟨rfl, rfl, h4, pyStrip_idem title, by omega, by omega, by omega⟩

theorem noteUpdate_parse_some {title content : String} {p : NoteUpdate}
    (h : NoteUpdate.parse title content = some p) :
    p.title = pyStrip title ∧ p.content = content ∧ p.title ≠ "" ∧
    pyStrip p.title = p.title ∧ 1 ≤ title.length ∧ title.length ≤ 200 ∧
    content.length ≤ 10000 := by
  simp only [NoteUpdate.parse] at h
  split at h
  case isTrue => exact Option.noConfusion h
  case isFalse h1 =>
    split at h
    case isTrue => exact Option.noConfusion h
    case isFalse h2 =>
      split at h
      case isTrue => exact Option.noConfusion h
      case isFalse h3 =>
        split at h
        case isTrue h4 => exact Option.noConfusion h
        case isFalse h4 =>
          injection h with h5
          subst h5
          exact ⟨rfl, rfl, h4, pyStrip_idem title, by omega, by omega, by omega⟩

theorem post_note_ok {db : DB} {title content : String} {now : Nat}
    {db2 : DB} {note : Note}
    (hids : ∀ r ∈ db.rows, r.id < db.nextId)
    (hok : post_note db title content now = (db2, Except.ok note)) :
    ∃ p, NoteCreate.parse title content = some p ∧
      note = { id := db.nextId, title := p.title, content := p.content,
               created_at := now, updated_at := now } ∧
      db2 = { rows := db.rows ++ [note], nextId := db.nextId + 1 } := by
  simp only [post_note] at hok
  cases hparse : NoteCreate.parse title content with
  | none =>
    rw [hparse] at hok
    exact Except.noConfusion (congrArg Prod.snd hok)
  | some p =>
    rw [hparse] at hok
    simp only [create_note] at hok
    rw [findRow_append_new (fun r hr => Nat.ne_of_lt (hids r hr))] at hok
    have h1 := congrArg Prod.fst hok
    have h2 := congrArg Prod.snd hok
    simp only at h1 h2
    injection h2 with h3
    exact ⟨p, rfl, h3.symm, by rw [← h1, h3]⟩

theorem put_note_ok {db : DB} {id : Int} {title content : String} {now : Nat}
    {db2 : DB} {note : Note}
    (hok : put_note db id title content now = (db2, Except.ok note)) :
    ∃ p old, NoteUpdate.parse title content = some p ∧
      findRowInt db.rows id = some old ∧ (old.id : Int) = id ∧
      note = { id := old.id, title := p.title, content := p.content,
               created_at := old.created_at, updated_at := now } ∧
      db2 = { rows := db.rows.map (fun r =>
                if (r.id : Int) = id then
                  { r with title := p.title, content := p.content,
                           updated_at := now }
                else r),
              nextId := db.nextId } := by
  simp only [put_note] at hok
  cases hparse : NoteUpdate.parse title content with
  | none =>
    rw [hparse] at hok
    exact Except.noConfusion (congrArg Prod.snd hok)
  | some p =>
    rw [hparse] at hok
    simp only [update_note] at hok
    cases hfind : findRowInt db.rows id with
    | none =>
      rw [hfind] at hok
      exact Except.noConfusion (congrArg Prod.snd hok)
    | some old =>
      rw [hfind] at hok
      have hf : ∀ r : Note,
          ((fun r : Note =>
            if (r.id : Int) = id then
              { r with title := p.title, content := p.content,
                       updated_at := now }
            else r) r).id = r.id := by
        intro r
        by_cases hr : (r.id : Int) = id <;> simp [hr]
      have hmap := @findRowInt_map_presv db.rows id _ hf
      rw [hfind] at hmap
      rw [hmap] at hok
      have hoid : (old.id : Int) = id := findRowInt_id hfind
      simp only [Option.map_some'] at hok
      rw [if_pos hoid] at hok
      have h1 := congrArg Prod.fst hok
      have h2 := congrArg Prod.snd hok
      simp only at h1 h2
      injection h2 with h3
      refine ⟨p, old, rfl, rfl, hoid, ?_, h1.symm⟩
      rw [← h3]

/-! ### Claim theorems -/

/-- Claim C1: a valid update (`PUT /notes/{id}`) of an existing note leaves
the row's `id` and `created_at` exactly as they were; only `title`,
`content` and `updated_at` are written, both in the returned note and in
storage (rows with other ids are untouched, the id sequence is untouched). -/
theorem update_frame_preserves_id_created_at
    (db : DB) (id : Int) (title content : String) (now : Nat)
    (db2 : DB) (note old : Note)
    (hfind : findRow db.rows id.toNat = some old)
    (hok : put_note db id title content now = (db2, Except.ok note)) :
    note.id = old.id ∧ note.created_at = old.created_at ∧
    db2.nextId = db.nextId ∧
    (∃ p, NoteUpdate.parse title content = some p ∧
      note = { id := old.id, title := p.title, content := p.content,
               created_at := old.created_at, updated_at := now }) ∧
    (∀ r ∈ db.rows, r.id ≠ old.id → r ∈ db2.rows) ∧
    (∀ r ∈ db2.rows, r.id ≠ old.id → r ∈ db.rows) := by
  obtain ⟨p, old2, hparse, hfind2, hoid, hnote, hdb2⟩ := put_note_ok hok
  have hnn : (0 : Int) ≤ id := by
    rw [← hoid]
    exact Int.natCast_nonneg old2.id
  rw [findRowInt_eq_findRow db.rows hnn, hfind] at hfind2
  injection hfind2 with hoe
  subst hoe
  refine ⟨by rw [hnote], by rw [hnote], by rw [hdb2], ⟨p, hparse, hnote⟩, ?_, ?_⟩
  · intro r hr hne
    rw [hdb2]
    have hfr : (if (r.id : Int) = id then
        { r with title := p.title, content := p.content, updated_at := now }
      else r) = r := by
      apply if_neg
      intro hcon
      apply hne
      have hri : (r.id : Int) = (old.id : Int) := by rw [hcon, hoid]
      exact_mod_cast hri
    rw [← hfr]
    exact List.mem_map_of_mem _ hr
  · intro r hr hne
    rw [hdb2] at hr
    obtain ⟨r0, hr0, hfr⟩ := List.mem_map.mp hr
    by_cases hcase : (r0.id : Int) = id
    · exfalso
      apply hne
      rw [← hfr, if_pos hcase]
      show r0.id = old.id
      have hri : (r0.id : Int) = (old.id : Int) := by rw [hcase, hoid]
      exact_mod_cast hri
    · rw [← hfr, if_neg hcase]
      exact hr0

/-- Claim C1 witness: updating the single note of a one-row store keeps its
id and creation timestamp. -/
theorem update_frame_preserves_id_created_at_witness :
    (Note.mk 1 "b" "c" 0 5).id = (Note.mk 1 "a" "" 0 0).id ∧
    (Note.mk 1 "b" "c" 0 5).created_at = (Note.mk 1 "a" "" 0 0).created_at := by
  have h := update_frame_preserves_id_created_at ⟨[⟨1, "a", "", 0, 0⟩], 2⟩ 1
      "b" "c" 5 ⟨[⟨1, "b", "c", 0, 5⟩], 2⟩ ⟨1, "b", "c", 0, 5⟩ ⟨1, "a", "", 0, 0⟩
      (by decide) (by decide)
  exact ⟨h.1, h.2.1⟩

/-- Claim C2: a valid create (`POST /notes`) returns a note whose
`created_at` and `updated_at` are the same single current timestamp, and
whose id is the fresh sequence value, distinct from every id previously
returned and from every stored row's id. -/
theorem create_fresh_id_equal_timestamps
    (db : DB) (title content : String) (now : Nat) (prev : List Nat)
    (db2 : DB) (note : Note)
    (hids : ∀ r ∈ db.rows, r.id < db.nextId)
    (hprev : ∀ i ∈ prev, i < db.nextId)
    (hok : post_note db title content now = (db2, Except.ok note)) :
    note.created_at = note.updated_at ∧ note.created_at = now ∧
    note.id = db.nextId ∧ note.id ∉ prev ∧
    ∀ r ∈ db.rows, note.id ≠ r.id := by
  obtain ⟨p, hparse, hnote, hdb2⟩ := post_note_ok hids hok
  subst hnote
  refine ⟨rfl, rfl, rfl, ?_, ?_⟩
  · intro hmem
    exact absurd (hprev _ hmem) (by simp)
  · intro r hr h
    have := hids r hr
    simp only at h
    omega

/-- Claim C2 witness: creating a note in a store whose ids 0 and 1 were
already handed out yields id 2 with equal timestamps. -/
theorem create_fresh_id_equal_timestamps_witness :
    (Note.mk 2 "hello" "" 7 7).created_at = (Note.mk 2 "hello" "" 7 7).updated_at ∧
    (Note.mk 2 "hello" "" 7 7).id ∉ [1] := by
  have h := create_fresh_id_equal_timestamps ⟨[⟨1, "a", "", 0, 0⟩], 2⟩
      "hello" "" 7 [1] ⟨[⟨1, "a", "", 0, 0⟩, ⟨2, "hello", "", 7, 7⟩], 3⟩
      ⟨2, "hello", "", 7, 7⟩ (by decide) (by decide) (by decide)
  exact ⟨h.1, h.2.2.2.1⟩

/-- Claim C3: `GET /notes` returns exactly the persisted rows (a
permutation of storage), sorted by `updated_at` descending with ties
broken by `id` descending, and an empty store yields the empty sequence
as a non-error result. -/
theorem list_notes_sorted_desc (db : DB) :
    (list_notes db).Perm db.rows ∧
    List.Sorted noteOrd (list_notes db) ∧
    list_notes ⟨[], db.nextId⟩ = [] :=
  ⟨List.perm_insertionSort noteOrd db.rows,
   List.sorted_insertionSort noteOrd db.rows, rfl⟩

/-- Claim C5 (code-bug evidence): the code clearly intends to reject
non-positive ids — each id path parameter is annotated
`Field(..., ge=1, description="Note id (positive integer).")` — but a
plain pydantic `Field` is not a valid FastAPI path-parameter declaration:
FastAPI raises an AssertionError (`Cannot use FieldInfo for path param`)
at route registration, so the module fails at import and no request ever
receives the claimed `ValidationError`.  The handler bodies themselves
contain no id check: a non-positive id is bound straight into the SQL
query, matches zero rows, and comes back as `NotFoundError`, as this
evaluation of the embedded bodies shows. -/
theorem nonpositive_id_reaches_query :
    get_note ⟨[], 1⟩ 0 = Except.error ApiError.notFound ∧
    get_note ⟨[], 1⟩ 0 ≠ Except.error ApiError.validationError ∧
    put_note ⟨[], 1⟩ (-5) "a" "" 0 = (⟨[], 1⟩, Except.error ApiError.notFound) ∧
    delete_note ⟨[], 1⟩ (-5) = (⟨[], 1⟩, Except.error ApiError.notFound) ∧
    get_note ⟨[⟨1, "a", "", 0, 0⟩], 2⟩ 0 = Except.error ApiError.notFound := by
  decide

/-- Claim C4: a valid update of an existing note returns exactly the
validated payload's `title` and `content`, and (assuming the UTC clock
did not run backwards, i.e. `now` is at least the prior `updated_at`)
an `updated_at` that is at least the prior `updated_at`. -/
theorem update_applies_payload
    (db : DB) (id : Int) (title content : String) (now : Nat)
    (db2 : DB) (note old : Note) (p : NoteUpdate)
    (hparse : NoteUpdate.parse title content = some p)
    (hfind : findRow db.rows id.toNat = some old)
    (hclock : old.updated_at ≤ now)
    (hok : put_note db id title content now = (db2, Except.ok note)) :
    note.title = p.title ∧ note.content = p.content ∧
    old.updated_at ≤ note.updated_at := by
  obtain ⟨p2, old2, hparse2, hfind2, hoid, hnote, hdb2⟩ := put_note_ok hok
  rw [hparse] at hparse2
  injection hparse2 with hpe
  subst hpe
  have hnn : (0 : Int) ≤ id := by
    rw [← hoid]
    exact Int.natCast_nonneg old2.id
  rw [findRowInt_eq_findRow db.rows hnn, hfind] at hfind2
  injection hfind2 with hoe
  subst hoe
  rw [hnote]
  exact ⟨rfl, rfl, hclock⟩

/-- Claim C4 witness: updating the stored note with title "B", content "x"
at a later instant returns those fields and a non-decreased timestamp. -/
theorem update_applies_payload_witness :
    (Note.mk 1 "B" "x" 0 5).title = (NoteUpdate.mk "B" "x").title ∧
    (Note.mk 1 "A" "" 0 3).updated_at ≤ (Note.mk 1 "B" "x" 0 5).updated_at := by
  have h := update_applies_payload ⟨[⟨1, "A", "", 0, 3⟩], 2⟩ 1 "B" "x" 5
      ⟨[⟨1, "B", "x", 0, 5⟩], 2⟩ ⟨1, "B", "x", 0, 5⟩ ⟨1, "A", "", 0, 3⟩
      ⟨"B", "x"⟩ (by decide) (by decide) (by decide) (by decide)
  exact ⟨h.1, h.2.2⟩

/-- Claim C6: DELETE succeeds with no content iff a row matching the id
was removed, fails with `NotFoundError` iff zero rows matched, and after
any DELETE of an id a subsequent GET of that id yields `NotFoundError` —
for every integer id: no id validation gate exists (the `Field(ge=1)`
annotation is an invalid declaration, see C5), and a non-positive id
simply matches zero rows. -/
theorem delete_note_spec (db : DB) (id : Int) :
    ((delete_note db id).2 = Except.ok () ↔ ∃ r ∈ db.rows, (r.id : Int) = id) ∧
    ((delete_note db id).2 = Except.error ApiError.notFound ↔
      ¬ ∃ r ∈ db.rows, (r.id : Int) = id) ∧
    (∀ db2 e, delete_note db id = (db2, e) →
      get_note db2 id = Except.error ApiError.notFound) := by
  have hkey : (db.rows.filter (fun r => ¬ (r.id : Int) = id)).length
      = db.rows.length ↔ ¬ ∃ r ∈ db.rows, (r.id : Int) = id := by
    constructor
    · intro hlen hex
      obtain ⟨r, hr, hrid⟩ := hex
      have hlt2 : (db.rows.filter (fun r => ¬ (r.id : Int) = id)).length <
          db.rows.length :=
        List.length_filter_lt_length_iff_exists.mpr ⟨r, hr, by simp [hrid]⟩
      omega
    · intro hne
      have heq : db.rows.filter (fun r => ¬ (r.id : Int) = id) = db.rows :=
        List.filter_eq_self.mpr (fun r hr => by
          simp only [decide_not, Bool.not_eq_true', decide_eq_false_iff_not]
          exact fun h => hne ⟨r, hr, h⟩)
      rw [heq]
  have hnone : findRowInt (db.rows.filter (fun r => ¬ (r.id : Int) = id)) id
      = none := by
    apply List.find?_eq_none.mpr
    intro r hr
    have := (List.mem_filter.mp hr).2
    simp only [decide_not, Bool.not_eq_true', decide_eq_false_iff_not] at this
    simpa using this
  simp only [delete_note]
  by_cases hlen : (db.rows.filter (fun r => ¬ (r.id : Int) = id)).length
      = db.rows.length
  · rw [if_pos hlen]
    refine ⟨?_, ?_, ?_⟩
    · exact iff_of_false (by simp) (fun hex => (hkey.mp hlen) hex)
    · exact iff_of_true rfl (hkey.mp hlen)
    · intro db2 e h
      have h1 := congrArg Prod.fst h
      simp only at h1
      rw [← h1]
      simp only [get_note]
      rw [hnone]
  · rw [if_neg hlen]
    have hex : ∃ r ∈ db.rows, (r.id : Int) = id := by
      by_contra hne
      exact hlen (hkey.mpr hne)
    refine ⟨iff_of_true rfl hex, iff_of_false (by simp) (fun hne => hne hex), ?_⟩
    · intro db2 e h
      have h1 := congrArg Prod.fst h
      simp only at h1
      rw [← h1]
      simp only [get_note]
      rw [hnone]

/-- Claim C6 witness: deleting the only stored note succeeds and the
subsequent GET for the same id is a 404; at id 0 zero rows match and the
failure is indeed `NotFoundError`. -/
theorem delete_note_spec_witness :
    ((delete_note ⟨[⟨1, "a", "", 0, 0⟩], 2⟩ 1).2 = Except.ok () ↔
      ∃ r ∈ [Note.mk 1 "a" "" 0 0], (r.id : Int) = 1) ∧
    get_note ⟨[], 2⟩ 1 = Except.error ApiError.notFound ∧
    (delete_note ⟨[], 1⟩ 0).2 = Except.error ApiError.notFound := by
  have h1 := delete_note_spec ⟨[⟨1, "a", "", 0, 0⟩], 2⟩ 1
  have h0 := delete_note_spec ⟨[], 1⟩ 0
  refine ⟨h1.1, h1.2.2 ⟨[], 2⟩ (Except.ok ()) (by decide), ?_⟩
  exact h0.2.1.mpr (by decide)

/-- Claim C7 counterexample: a PUT whose payload fails validation (title
`" "`) against an id with no matching row fails with the 422
`ValidationError` from pydantic body validation — which FastAPI runs
before the handler — not `NotFoundError`, so the claim is false as stated
over all PUT requests; it holds once the payload passes validation. -/
theorem update_missing_validation_first :
    findRowInt (DB.mk [] 1).rows 1 = none ∧
    put_note ⟨[], 1⟩ 1 " " "" 0 = (⟨[], 1⟩, Except.error ApiError.validationError) ∧
    (put_note ⟨[], 1⟩ 1 " " "" 0).2 ≠ Except.error ApiError.notFound := by
  decide

/-- Claim C7 (amended to requests whose payload passes validation): when
no row matches the id, the update fails with `NotFoundError` at the
existence check, before any mutation, and the storage state is returned
unchanged — for every integer id, since no id validation gate exists
(see C5). -/
theorem update_missing_not_found
    (db : DB) (id : Int) (title content : String) (now : Nat) (p : NoteUpdate)
    (hparse : NoteUpdate.parse title content = some p)
    (hfind : findRowInt db.rows id = none) :
    put_note db id title content now = (db, Except.error ApiError.notFound) := by
  simp only [put_note, hparse, update_note]
  simp [hfind]

/-- Claim C7 witness: a valid PUT for id 1 against an empty store is a 404
and leaves the store empty. -/
theorem update_missing_not_found_witness :
    put_note ⟨[], 1⟩ 1 "a" "" 0 = (⟨[], 1⟩, Except.error ApiError.notFound) :=
  update_missing_not_found ⟨[], 1⟩ 1 "a" "" 0 ⟨"a", ""⟩ (by decide) (by decide)

/-- Claim C8: a title made only of whitespace fails validation for both
create and update — the stripped title is empty, so `_title_non_empty`
rejects it — and storage is returned unchanged (nothing is created or
modified). -/
theorem whitespace_title_validation_error
    (db : DB) (id : Int) (title content : String) (now : Nat)
    (hws : ∀ c ∈ title.data, c.isWhitespace) :
    NoteCreate.parse title content = none ∧
    NoteUpdate.parse title content = none ∧
    post_note db title content now = (db, Except.error ApiError.validationError) ∧
    put_note db id title content now = (db, Except.error ApiError.validationError) := by
  have hp : pyStrip title = "" := pyStrip_eq_empty hws
  have hc : NoteCreate.parse title content = none := by
    simp [NoteCreate.parse, hp]
  have hu : NoteUpdate.parse title content = none := by
    simp [NoteUpdate.parse, hp]
  exact ⟨hc, hu, by simp [post_note, hc], by simp [put_note, hu]⟩

/-- Claim C8 witness: the three-space title is rejected by both payload
validators and both endpoints leave the store unchanged. -/
theorem whitespace_title_validation_error_witness :
    NoteCreate.parse "   " "" = none ∧
    post_note ⟨[], 1⟩ "   " "" 0 = (⟨[], 1⟩, Except.error ApiError.validationError) := by
  have h := whitespace_title_validation_error ⟨[], 1⟩ 1 "   " "" 0 (by decide)
  exact ⟨h.1, h.2.2.1⟩

/-- Claim C9: create, update, and delete all preserve the data-model
invariant `Wf` (positive distinct ids below the id sequence,
`created_at <= updated_at`, titles non-empty and in stripped normal form;
the five fields are total by construction, mirroring the `NOT NULL`
schema), assuming the UTC clock is monotone (`now` at least every stored
`updated_at`); moreover no operation ever decreases the id sequence, and
delete leaves it untouched, which is what makes a deleted id never
reusable. -/
theorem crud_preserves_invariants
    (db : DB) (id : Int) (title content : String) (now : Nat)
    (hwf : Wf db)
    (hclock : ∀ r ∈ db.rows, r.updated_at ≤ now) :
    Wf (post_note db title content now).1 ∧
    db.nextId ≤ (post_note db title content now).1.nextId ∧
    Wf (put_note db id title content now).1 ∧
    (put_note db id title content now).1.nextId = db.nextId ∧
    Wf (delete_note db id).1 ∧
    (delete_note db id).1.nextId = db.nextId := by
  obtain ⟨hrows, hnodup, hone⟩ := hwf
  have hpost : Wf (post_note db title content now).1 ∧
      db.nextId ≤ (post_note db title content now).1.nextId := by
    cases hparse : NoteCreate.parse title content with
    | none =>
      simp only [post_note, hparse]
      exact ⟨⟨hrows, hnodup, hone⟩, Nat.le_refl _⟩
    | some p =>
      obtain ⟨hpt, hpc, hpne, hpnorm, _, _, _⟩ := noteCreate_parse_some hparse
      have hfst : (post_note db title content now).1 =
          DB.mk (db.rows ++ [⟨db.nextId, p.title, p.content, now, now⟩])
            (db.nextId + 1) := by
        simp only [post_note, hparse, create_note]
        cases hfr : findRow
            (db.rows ++ [⟨db.nextId, p.title, p.content, now, now⟩])
            db.nextId <;> rfl
      rw [hfst]
      refine ⟨⟨?_, ?_, by show 1 ≤ db.nextId + 1; omega⟩,
        by show db.nextId ≤ db.nextId + 1; omega⟩
      · intro r hr
        rcases List.mem_append.mp hr with hin | hin
        · obtain ⟨h1, h2, h3, h4, h5⟩ := hrows r hin
          exact ⟨h1, by show r.id < db.nextId + 1; omega, h3, h4, h5⟩
        · rw [List.mem_singleton] at hin
          subst hin
          refine ⟨hone, ?_, Nat.le_refl now, hpne, hpnorm⟩
          show db.nextId < db.nextId + 1
          omega
      · show ((db.rows ++ [Note.mk db.nextId p.title p.content now now]).map
          Note.id).Nodup
        rw [List.map_append, List.nodup_append]
        refine ⟨hnodup, List.nodup_singleton _, ?_⟩
        simp only [List.map_cons, List.map_nil]
        rw [List.disjoint_singleton]
        intro ha
        obtain ⟨r, hr, hrid⟩ := List.mem_map.mp ha
        have hx : r.id = db.nextId := hrid
        have := (hrows r hr).2.1
        omega
  have hput : Wf (put_note db id title content now).1 ∧
      (put_note db id title content now).1.nextId = db.nextId := by
    cases hparse : NoteUpdate.parse title content with
    | none =>
      simp only [put_note, hparse]
      exact ⟨⟨hrows, hnodup, hone⟩, by trivial⟩
    | some p =>
      obtain ⟨hpt, hpc, hpne, hpnorm, _, _, _⟩ := noteUpdate_parse_some hparse
      simp only [put_note, hparse, update_note]
      cases hfind : findRowInt db.rows id with
      | none =>
        simp only [hfind]
        exact ⟨⟨hrows, hnodup, hone⟩, by trivial⟩
      | some old =>
        simp only [hfind]
        have hwf2 : Wf (DB.mk (db.rows.map (fun r =>
            if (r.id : Int) = id then
              { r with title := p.title, content := p.content,
                       updated_at := now }
            else r)) db.nextId) := by
          refine ⟨?_, ?_, hone⟩
          · intro r2 hr2
            obtain ⟨r, hr, hfr⟩ := List.mem_map.mp hr2
            obtain ⟨h1, h2, h3, h4, h5⟩ := hrows r hr
            have h6 := hclock r hr
            subst hfr
            by_cases hcase : (r.id : Int) = id
            · rw [if_pos hcase]
              refine ⟨h1, h2, ?_, hpne, hpnorm⟩
              show r.created_at ≤ now
              omega
            · rw [if_neg hcase]
              exact ⟨h1, h2, h3, h4, h5⟩
          · have hsame : (db.rows.map (fun r =>
                if (r.id : Int) = id then
                  { r with title := p.title, content := p.content,
                           updated_at := now }
                else r)).map Note.id = db.rows.map Note.id := by
              rw [List.map_map]
              apply List.map_congr_left
              intro r hr
              by_cases hcase : (r.id : Int) = id <;>
                simp [Function.comp, hcase]
            show ((db.rows.map _).map Note.id).Nodup
            rw [hsame]
            exact hnodup
        cases hfr : findRowInt (db.rows.map (fun r =>
            if (r.id : Int) = id then
              { r with title := p.title, content := p.content,
                       updated_at := now }
            else r)) id with
        | none => simp only [hfr]; exact ⟨hwf2, by trivial⟩
        | some row => simp only [hfr]; exact ⟨hwf2, by trivial⟩
  have hdel : Wf (delete_note db id).1 ∧
      (delete_note db id).1.nextId = db.nextId := by
    simp only [delete_note]
    have hwf2 : Wf (DB.mk (db.rows.filter (fun r => ¬ (r.id : Int) = id))
        db.nextId) := by
      refine ⟨?_, ?_, hone⟩
      · intro r hr
        exact hrows r (List.mem_of_mem_filter hr)
      · exact ((List.filter_sublist db.rows).map Note.id).nodup hnodup
    by_cases hlen : (db.rows.filter (fun r => ¬ (r.id : Int) = id)).length
        = db.rows.length
    · rw [if_pos hlen]
      exact ⟨hwf2, by trivial⟩
    · rw [if_neg hlen]
      exact ⟨hwf2, by trivial⟩
  exact ⟨hpost.1, hpost.2, hput.1, hput.2, hdel.1, hdel.2⟩

/-- Claim C9 witness: the invariant holds after a create, an update, and a
delete against a well-formed one-row store at a later clock instant. -/
theorem crud_preserves_invariants_witness :
    Wf (post_note ⟨[⟨1, "a", "", 0, 0⟩], 2⟩ "b" "c" 3).1 ∧
    Wf (put_note ⟨[⟨1, "a", "", 0, 0⟩], 2⟩ 1 "b" "c" 3).1 ∧
    Wf (delete_note ⟨[⟨1, "a", "", 0, 0⟩], 2⟩ 1).1 := by
  have h := crud_preserves_invariants ⟨[⟨1, "a", "", 0, 0⟩], 2⟩ 1 "b" "c" 3
      (by decide) (by decide)
  exact ⟨h.1, h.2.2.1, h.2.2.2.2.1⟩

/-- Claim C10: the 200-character cap on `title` is checked on the raw,
untrimmed input (a raw title longer than 200 characters is rejected even
if it trims to at most 200), and what an accepted payload carries — and
what create persists and returns — is the stripped title, not the raw
one. -/
theorem title_cap_on_raw_trimmed_persisted
    (db : DB) (title content : String) (now : Nat)
    (hids : ∀ r ∈ db.rows, r.id < db.nextId) :
    (200 < title.length →
      NoteCreate.parse title content = none ∧
      NoteUpdate.parse title content = none) ∧
    (∀ p, NoteCreate.parse title content = some p → p.title = pyStrip title) ∧
    (∀ p, NoteUpdate.parse title content = some p → p.title = pyStrip title) ∧
    (∀ db2 note, post_note db title content now = (db2, Except.ok note) →
      note.title = pyStrip title ∧ note ∈ db2.rows) := by
  refine ⟨?_, ?_, ?_, ?_⟩
  · intro hlong
    constructor
    · unfold NoteCreate.parse
      rw [if_neg (by omega), if_pos hlong]
    · unfold NoteUpdate.parse
      rw [if_neg (by omega), if_pos hlong]
  · intro p hp
    exact (noteCreate_parse_some hp).1
  · intro p hp
    exact (noteUpdate_parse_some hp).1
  · intro db2 note hok
    obtain ⟨p, hparse, hnote, hdb2⟩ := post_note_ok hids hok
    constructor
    · rw [hnote]
      exact (noteCreate_parse_some hparse).1
    · rw [hdb2, hnote]
      simp

set_option maxRecDepth 4000 in
/-- Claim C10 witness: a raw 201-character title (200 trailing blanks after
one letter) is rejected by both validators even though it trims to one
character, and the accepted title " a " is persisted as its stripped form. -/
theorem title_cap_on_raw_trimmed_persisted_witness :
    NoteCreate.parse (String.mk ('a' :: List.replicate 200 ' ')) "" = none ∧
    NoteUpdate.parse (String.mk ('a' :: List.replicate 200 ' ')) "" = none ∧
    (NoteCreate.mk "a" "").title = pyStrip " a " := by
  have h1 := title_cap_on_raw_trimmed_persisted ⟨[], 1⟩
      (String.mk ('a' :: List.replicate 200 ' ')) "" 0 (by decide)
  have h2 := title_cap_on_raw_trimmed_persisted ⟨[], 1⟩ " a " "" 0 (by decide)
  have hlong := h1.1 (by decide)
  exact ⟨hlong.1, hlong.2, (h2.2.1 ⟨"a", ""⟩ (by decide)).symm⟩
